import Mathlib

/-!
Verification of the selective-disclosure prover core of the gabi
(Idemix / Camenisch-Lysyanskaya) anonymous-credential library.

Big integers (`math/big.Int`) are embedded as `Int`; Go's `Mod`/`Exp` are
Euclidean, matching `Int.emod` for positive moduli.  Randomness (CSPRNG
samples) is passed in as explicit arguments.  Opaque collaborators
(`rangeproof`, `revocation`, SHA-256 hashing, the probabilistic primality
test) are model parameters.
-/

namespace Gabi

/-- System parameters of the IRMA system (`gabikeys.SystemParameters`);
only the bit-length fields used by the prover core are carried. -/
structure SystemParameters where
  Le : Nat
  LePrime : Nat
  Lm : Nat
  LRA : Nat
  LeCommit : Nat
  LmCommit : Nat
  LvCommit : Nat
deriving DecidableEq

/-- Issuer public key (`gabikeys.PublicKey`): modulus `N`, generators `Z`, `S`,
bases `R`, and the system parameters. -/
structure PublicKey where
  N : Int
  Z : Int
  S : Int
  R : List Int
  Params : SystemParameters
deriving DecidableEq

/-- A Camenisch-Lysyanskaya signature (`CLSignature`). -/
structure CLSignature where
  A : Int
  E : Int
  V : Int
  KeyshareP : Option Int
deriving DecidableEq

/-- Modelled from the spec: `common.ModInverse` (package `internal/common` is
not part of the provided sources).  Returns the inverse of `a` modulo `n` in
`[0, n)` when it exists, mirroring `big.Int.ModInverse` plus the `ok` flag. -/
def modInverse (a n : Int) : Option Int :=
  if Int.gcd a n = 1 then some (Int.gcdA a n % n) else none

/-- Modelled from the spec: `common.ModPow` (package `internal/common` is not
part of the provided sources).  Per the spec's design notes, "a correct
`mod_pow` must accept negative exponents by first inverting the base mod `N`";
a non-invertible base with a negative exponent is an error (`none`). -/
def ModPow (b e n : Int) : Option Int :=
  if 0 ≤ e then some (b ^ e.toNat % n)
  else (modInverse b n).map fun i => i ^ (-e).toNat % n

/-- Fuel-carrying helper for `bitLen` (structural recursion so that the
kernel can evaluate it). -/
def bitLenAux : Nat → Nat → Nat
  | 0, _ => 0
  | fuel + 1, n => if n = 0 then 0 else bitLenAux fuel (n / 2) + 1

/-- Bit length of a natural number, as `big.Int.BitLen` computes it on the
absolute value: `bitLen 0 = 0`, otherwise `⌊log₂ n⌋ + 1`. -/
def bitLen (n : Nat) : Nat := bitLenAux n n

/-- Modelled from the spec: `common.RepresentToBases` (package
`internal/common` is not part of the provided sources).  Per the comment on
`RepresentToPublicKey`, this returns `R[0]^{exps[0]} * ... * R[k]^{exps[k]}
(mod N)`, where an exponent is replaced by its hash when its bit length
exceeds the maximum message length; `hash` abstracts `common.IntHashSha256`. -/
def RepresentToBases (hash : Int → Int) (bases exps : List Int)
    (n : Int) (maxMessageLength : Nat) : Int :=
  (bases.zip exps).foldl
    (fun acc p =>
      let e := if maxMessageLength < bitLen p.2.natAbs then hash p.2 else p.2
      acc * (p.1 ^ e.toNat % n) % n)
    1

/-- `RepresentToPublicKey` from `clsignature.go`. -/
def RepresentToPublicKey (hash : Int → Int) (pk : PublicKey) (exps : List Int) : Int :=
  RepresentToBases hash pk.R exps pk.N pk.Params.Lm

/-- Multiplication of the bases representation by the optional `KeyshareP`
(`R.Mul(R, s.KeyshareP)` in `Verify`). -/
def keyshareAdjust : Option Int → Int → Int
  | none, R => R
  | some k, R => R * k

/-- `CLSignature.Verify` from `clsignature.go`: checks the range and primality
of `E` (`primeTest` abstracts the 80-round `ProbablyPrime` call), then checks
`A^E * prod R_i^{m_i} * (KeyshareP?) * S^V ≡ Z (mod N)`. -/
def CLSignature.Verify (hash : Int → Int) (primeTest : Int → Bool)
    (s : CLSignature) (pk : PublicKey) (ms : List Int) : Bool :=
  if s.E < 2 ^ (pk.Params.Le - 1) then false
  else if (2 : Int) ^ (pk.Params.LePrime - 1) + 2 ^ (pk.Params.Le - 1) < s.E then false
  else if primeTest s.E = false then false
  else
    match ModPow pk.S s.V pk.N with
    | none => false
    | some Sv =>
      decide (pk.Z =
        s.A ^ s.E.toNat % pk.N *
          keyshareAdjust s.KeyshareP (RepresentToPublicKey hash pk ms) * Sv % pk.N)

/-- `CLSignature.Randomize` from `clsignature.go`, with the sampled
randomiser `r` (drawn from `[0, 2^LRA)`) made explicit:
`A' = A * S^r mod N`, `E' = E`, `V' = V - E*r` (over the integers). -/
def CLSignature.Randomize (s : CLSignature) (pk : PublicKey) (r : Int) : CLSignature :=
  { A := s.A * (pk.S ^ r.toNat % pk.N) % pk.N
    E := s.E
    V := s.V - s.E * r
    KeyshareP := none }

/-! ### Revocation and range-proof collaborators (opaque contracts) -/

/-- A revocation witness: only the fields the prover core reads are carried —
the revocation scalar `E` and `SignedAccumulator.Accumulator.Index`. -/
structure Witness where
  E : Int
  accIndex : Nat
deriving DecidableEq

/-- A `revocation.Proof`: only its `Responses` map (modelled as an
association list, keys unique as in a Go map) is relevant here. -/
structure RevProof where
  Responses : List (String × Int)
deriving DecidableEq

/-- Opaque contract of the `revocation` package: `NewProofCommit` (returning
the commitment list and a `ProofCommit` token), `ProofCommit.Update`
(returning the updated token and commitment list, modelling the in-place
mutation), and `ProofCommit.BuildProof`.  `ProofCommit` tokens are `Int`. -/
structure RevOps where
  newProofCommit : PublicKey → Witness → Int → List Int × Int
  update : Int → List Int → Witness → Int × List Int
  buildProof : Int → Int → RevProof

/-- Opaque contract of a `rangeproof.ProofStructure`:
`CommitmentsFromSecrets` returns (contributions, `ProofCommit` token), and
`BuildProof` maps a token and a challenge to a proof token. -/
structure RPStructure where
  commitFn : PublicKey → Int → Int → List Int × Int
  proofFn : Int → Int → Int

/-- Opaque contract of a `rangeproof.Statement`: `ProofStructure(index)`. -/
structure Statement where
  proofStructure : Int → RPStructure

/-- `NonRevocationProofBuilder` from `credential.go`.  `commitments` is an
`Option` to model the nil-able Go slice, `commit` the nil-able pointer. -/
structure NonRevocationProofBuilder where
  pk : PublicKey
  witness : Witness
  commit : Option Int
  commitments : Option (List Int)
  randomizer : Int
  index : Nat

/-- `NonRevocationProofBuilder.UpdateCommit` from `credential.go`: error on an
uninitialised builder (`commit` nil or fewer than 5 commitments), no-op when
the witness's accumulator index is not strictly newer, otherwise update the
witness, commitments and index. -/
def NonRevocationProofBuilder.UpdateCommit (ops : RevOps)
    (b : NonRevocationProofBuilder) (w : Witness) :
    Except String NonRevocationProofBuilder :=
  match b.commit with
  | none => .error "cannot update noninitialized NonRevocationProofBuilder"
  | some c =>
    if (b.commitments.getD []).length < 5 then
      .error "cannot update noninitialized NonRevocationProofBuilder"
    else if w.accIndex ≤ b.index then .ok b
    else
      let p := ops.update c (b.commitments.getD []) w
      .ok { b with witness := w, commit := some p.1, commitments := some p.2,
                   index := w.accIndex }

/-- `NonRevocationProofBuilder.Commit` from `credential.go`: compute
`NewProofCommit` on first call, return the cached commitments afterwards. -/
def NonRevocationProofBuilder.Commit (ops : RevOps)
    (b : NonRevocationProofBuilder) : NonRevocationProofBuilder × List Int :=
  match b.commitments with
  | some cs => (b, cs)
  | none =>
    let r := ops.newProofCommit b.pk b.witness b.randomizer
    ({ b with commitments := some r.1, commit := some r.2 }, r.1)

/-! ### Disclosure proof builder -/

/-- A keyshare server's `ProofPCommitment` contribution. -/
structure ProofPCommitment where
  Pcommit : Int

/-- `ProofD` from the proof structures: the final disclosure proof.
`AResponses`, `ADisclosed` and `RangeProofs` are Go maps, modelled as
association lists in emission order. -/
structure ProofD where
  C : Int
  A : Int
  EResponse : Int
  VResponse : Int
  AResponses : List (Int × Int)
  ADisclosed : List (Int × Int)
  NonRevocationProof : Option RevProof
  RangeProofs : Option (List (Int × List Int))

/-- `DisclosureProofBuilder` from `credential.go`.  `attrRandomizers` is a
total function (the Go map holds entries exactly for the undisclosed indices;
all reads in the modelled code go through such defined keys). -/
structure DisclosureProofBuilder where
  randomizedSignature : CLSignature
  eCommit : Int
  vCommit : Int
  attrRandomizers : Int → Int
  z : Int
  disclosedAttributes : List Int
  undisclosedAttributes : List Int
  pk : PublicKey
  attributes : List Int
  nonrevBuilder : Option NonRevocationProofBuilder
  rpStructures : Option (List (Int × List RPStructure))
  rpCommits : Option (List (Int × List Int))

/-- `MergeProofPCommitment` from `credential.go`:
`z ← z * pcommit.Pcommit mod N`. -/
def DisclosureProofBuilder.MergeProofPCommitment (d : DisclosureProofBuilder)
    (commitment : ProofPCommitment) : DisclosureProofBuilder :=
  { d with z := d.z * commitment.Pcommit % d.pk.N }

/-- The `Z`-accumulation loop of `DisclosureProofBuilder.Commit` over the
undisclosed attributes: `z ← z * R_v^{attrRandomizers[v]} mod N`, failing when
`ModPow` does. -/
def commitZFold (pk : PublicKey) (ar : Int → Int) : List Int → Int → Option Int
  | [], z => some z
  | v :: rest, z =>
    match ModPow (pk.R.getD v.toNat 0) (ar v) pk.N with
    | none => none
    | some t => commitZFold pk ar rest (z * t % pk.N)

/-- The range-proof loop of `DisclosureProofBuilder.Commit`: iterate the
attribute indices in ascending order, and for each index carrying range
statements compute the contributions (appended to the commitment list) and
the `ProofCommit` tokens (recorded in `rpCommits`), in statement order. -/
def rpCommitLoop (pk : PublicKey) (attributes : List Int) (ar : Int → Int)
    (rps : List (Int × List RPStructure)) : List Int × List (Int × List Int) :=
  (List.range attributes.length).foldl
    (fun acc (i : Nat) =>
      match rps.lookup (i : Int) with
      | none => acc
      | some structures =>
        (acc.1 ++ structures.flatMap
            (fun st => (st.commitFn pk (attributes.getD i 0) (ar (i : Int))).1),
         acc.2 ++ [((i : Int), structures.map
            (fun st => (st.commitFn pk (attributes.getD i 0) (ar (i : Int))).2))]))
    ([], [])

/-- The tail of `DisclosureProofBuilder.Commit` after the `Z` accumulation:
emit `[A', Z]`, then the range-proof contributions (recording `rpCommits`).
`nrList` is the non-revocation chunk already computed. -/
def commitRange (d2 : DisclosureProofBuilder) (nrList : List Int) :
    Option (DisclosureProofBuilder × List Int) :=
  match d2.rpStructures with
  | none => some (d2, [d2.randomizedSignature.A, d2.z] ++ nrList)
  | some rps =>
    some
      ({ d2 with
         rpCommits := some (rpCommitLoop d2.pk d2.attributes d2.attrRandomizers rps).2 },
       [d2.randomizedSignature.A, d2.z] ++ nrList ++
         (rpCommitLoop d2.pk d2.attributes d2.attrRandomizers rps).1)

/-- The non-revocation step of `DisclosureProofBuilder.Commit`: append the
(possibly freshly computed) non-revocation commitments. -/
def commitNonrev (ops : RevOps) (d2 : DisclosureProofBuilder) :
    Option (DisclosureProofBuilder × List Int) :=
  match d2.nonrevBuilder with
  | none => commitRange d2 []
  | some nb =>
    commitRange { d2 with nonrevBuilder := some (nb.Commit ops).1 } (nb.Commit ops).2

/-- `DisclosureProofBuilder.Commit` from `credential.go`: set
`attrRandomizers[0]` from the `"secretkey"` randomiser, accumulate
`Z ← Z * A'^{eCommit} * S^{vCommit} * prod R_i^{attrRandomizers[i]} mod N`,
return `[A', Z]` followed by the non-revocation commitments followed by the
range-proof contributions.  `none` models the error return. -/
def DisclosureProofBuilder.Commit (ops : RevOps) (d : DisclosureProofBuilder)
    (randomizers : List (String × Int)) :
    Option (DisclosureProofBuilder × List Int) :=
  match ModPow d.randomizedSignature.A d.eCommit d.pk.N with
  | none => none
  | some Ae =>
    match ModPow d.pk.S d.vCommit d.pk.N with
    | none => none
    | some Sv =>
      match commitZFold d.pk
          (Function.update d.attrRandomizers 0 ((randomizers.lookup "secretkey").getD 0))
          d.undisclosedAttributes (d.z * Ae * Sv % d.pk.N) with
      | none => none
      | some z2 =>
        commitNonrev ops
          { d with
            attrRandomizers :=
              Function.update d.attrRandomizers 0 ((randomizers.lookup "secretkey").getD 0)
            z := z2 }

/-- `DisclosureProofBuilder.CreateProof` from `credential.go`.  All response
arithmetic is over the integers; `hash` abstracts `common.IntHashSha256`, and
the `"alpha"` entry is removed from the non-revocation responses. -/
def DisclosureProofBuilder.CreateProof (hash : Int → Int) (ops : RevOps)
    (d : DisclosureProofBuilder) (challenge : Int) : ProofD :=
  { C := challenge
    A := d.randomizedSignature.A
    EResponse := d.eCommit +
      challenge * (d.randomizedSignature.E - 2 ^ (d.pk.Params.Le - 1))
    VResponse := d.vCommit + challenge * d.randomizedSignature.V
    AResponses := d.undisclosedAttributes.map fun v =>
      let exp := d.attributes.getD v.toNat 0
      let exp2 := if d.pk.Params.Lm < bitLen exp.natAbs then hash exp else exp
      (v, d.attrRandomizers v + challenge * exp2)
    ADisclosed := d.disclosedAttributes.map fun v =>
      (v, d.attributes.getD v.toNat 0)
    NonRevocationProof := d.nonrevBuilder.map fun nb =>
      let p := ops.buildProof (nb.commit.getD 0) challenge
      { Responses := p.Responses.filter fun kv => kv.1 != "alpha" }
    RangeProofs := d.rpStructures.map fun rps =>
      rps.map fun e =>
        (e.1, (e.2.zip (((d.rpCommits.getD []).lookup e.1).getD [])).map
          fun sc => sc.1.proofFn sc.2 challenge) }

/-! ### Credential, undisclosed-attribute computation, builder construction -/

/-- The marking loop of `getUndisclosedAttributes`: `check[v] = true` for each
disclosed index `v`; `none` models the Go out-of-bounds panic on an index
outside `[0, numAttributes)`. -/
def markCheck : List Bool → List Int → Option (List Bool)
  | check, [] => some check
  | check, v :: rest =>
    if 0 ≤ v ∧ v < (check.length : Int) then
      markCheck (check.set v.toNat true) rest
    else none

/-- `getUndisclosedAttributes` from `credential.go`: the complement of the
disclosed indices within `0..numAttributes-1`, in ascending order; `none`
models the out-of-bounds panic. -/
def getUndisclosedAttributes (disclosedAttributes : List Int)
    (numAttributes : Nat) : Option (List Int) :=
  (markCheck (List.replicate numAttributes false) disclosedAttributes).map
    fun check =>
      ((List.range check.length).filter fun i => !(check.getD i false)).map
        fun (i : Nat) => (i : Int)

/-- `isUndisclosedAttribute` from `credential.go`. -/
def isUndisclosedAttribute (disclosedAttributes : List Int)
    (attr : Int) : Bool :=
  !(disclosedAttributes.contains attr)

/-- The range-statement loop of `CreateDisclosureProofBuilder`: reject when a
statement addresses a disclosed index, otherwise precompute a
`ProofStructure` per statement, in input order. -/
def buildRpStructures (disclosedAttributes : List Int) :
    List (Int × List Statement) → Except String (List (Int × List RPStructure))
  | [] => .ok []
  | (idx, stmts) :: rest =>
    if isUndisclosedAttribute disclosedAttributes idx then
      match buildRpStructures disclosedAttributes rest with
      | .error e => .error e
      | .ok tl => .ok ((idx, stmts.map fun st => st.proofStructure idx) :: tl)
    else .error "Range statements on revealed attributes are not supported"

/-- `Credential` from `credential.go`.  The single-slot builder cache channel
is `nonrevCache`: outer `none` = channel not yet allocated, inner value = the
slot's content. -/
structure Credential where
  signature : CLSignature
  pk : PublicKey
  attributes : List Int
  nonRevocationWitness : Option Witness
  nonrevCache : Option (Option NonRevocationProofBuilder)

/-- The search loop of `Credential.NonrevIndex`: first index whose attribute
equals the revocation scalar. -/
def findRevIdx (e : Int) : List Int → Int → Option Int
  | [], _ => none
  | a :: rest, idx => if a = e then some idx else findRevIdx e rest (idx + 1)

/-- `Credential.NonrevIndex` from `credential.go`. -/
def Credential.NonrevIndex (ic : Credential) : Except String Int :=
  match ic.nonRevocationWitness with
  | none => .error "credential has no nonrevocation witness"
  | some w =>
    match findRevIdx w.E ic.attributes 0 with
    | some idx => .ok idx
    | none => .error "revocation attribute not included in credential"

/-- `Credential.NonrevBuildProofBuilder` from `credential.go`, with the
sampled `revocation.NewProofRandomizer()` value passed in as `freshRand`. -/
def Credential.NonrevBuildProofBuilder (ops : RevOps) (freshRand : Int)
    (ic : Credential) : Except String NonRevocationProofBuilder :=
  match ic.nonRevocationWitness with
  | none => .error "credential has no nonrevocation witness"
  | some w =>
    .ok (NonRevocationProofBuilder.Commit ops
      { pk := ic.pk, witness := w, commit := none, commitments := none,
        randomizer := freshRand, index := w.accIndex }).1

/-- `Credential.nonrevConsumeBuilder` from `credential.go` (sequential
semantics; the interleaving behaviour of the channel is modelled separately).
Takes the cached builder if the slot holds one — leaving the slot empty,
never to be refilled by this path — else builds a fresh one.  Returns the
builder and the new slot state. -/
def Credential.nonrevConsumeBuilder (ops : RevOps) (freshRand : Int)
    (w : Witness) (ic : Credential) :
    Except String (NonRevocationProofBuilder × Option (Option NonRevocationProofBuilder)) :=
  match ic.nonrevCache with
  | some (some b) =>
    match NonRevocationProofBuilder.UpdateCommit ops b w with
    | .error e => .error e
    | .ok b2 => .ok (b2, some none)
  | _ =>
    match Credential.NonrevBuildProofBuilder ops freshRand ic with
    | .error e => .error e
    | .ok b => .ok (b, ic.nonrevCache)

/-- `Credential.NonrevPrepareCache` from `credential.go` (sequential
semantics): silently succeed without a witness; otherwise allocate the
channel if needed, take-or-build a builder, update it, and put it back. -/
def Credential.NonrevPrepareCache (ops : RevOps) (freshRand : Int)
    (ic : Credential) : Credential × Option String :=
  match ic.nonRevocationWitness with
  | none => (ic, none)
  | some w =>
    let cache0 : Option (Option NonRevocationProofBuilder) :=
      match ic.nonrevCache with
      | none => some none
      | some c => some c
    match cache0 with
    | some (some b) =>
      match NonRevocationProofBuilder.UpdateCommit ops b w with
      | .error e => ({ ic with nonrevCache := some none }, some e)
      | .ok b2 => ({ ic with nonrevCache := some (some b2) }, none)
    | _ =>
      match Credential.NonrevBuildProofBuilder ops freshRand ic with
      | .error e => ({ ic with nonrevCache := cache0 }, some e)
      | .ok b => ({ ic with nonrevCache := some (some b) }, none)

/-- Result of `CreateDisclosureProofBuilder` / `CreateDisclosureProof`:
distinguishes a Go panic (out-of-bounds access) from an error return. -/
inductive BuildResult (α : Type) where
  | panicked
  | failed (msg : String)
  | ok (val : α)

/-- The range-statement phase of `CreateDisclosureProofBuilder`: `none`
range statements are passed through, otherwise the structures are
precomputed (rejecting statements on disclosed indices). -/
def rpStructuresOf (disclosedAttributes : List Int) :
    Option (List (Int × List Statement)) →
      Except String (Option (List (Int × List RPStructure)))
  | none => .ok none
  | some lst =>
    match buildRpStructures disclosedAttributes lst with
    | .error e => .error e
    | .ok l => .ok (some l)

/-- The `DisclosureProofBuilder` as populated by
`CreateDisclosureProofBuilder` before the revocation phase. -/
def initialDisclosureBuilder (ic : Credential)
    (disclosedAttributes undisclosed : List Int)
    (rps : Option (List (Int × List RPStructure)))
    (r eC vC : Int) (attrRand : Int → Int) : DisclosureProofBuilder :=
  { randomizedSignature := ic.signature.Randomize ic.pk r
    eCommit := eC
    vCommit := vC
    attrRandomizers := attrRand
    z := 1
    disclosedAttributes := disclosedAttributes
    undisclosedAttributes := undisclosed
    pk := ic.pk
    attributes := ic.attributes
    nonrevBuilder := none
    rpStructures := rps
    rpCommits := none }

/-- `Credential.CreateDisclosureProofBuilder` from `credential.go`, with the
sampled randomness explicit: `r` for `Randomize`, `eC`/`vC` for the `e`/`v`
commitments, `attrRand` for the per-attribute randomisers, and `freshRand`
for a freshly built non-revocation builder.  Returns the builder together
with the credential's new cache-slot state. -/
def Credential.CreateDisclosureProofBuilder (ops : RevOps) (ic : Credential)
    (disclosedAttributes : List Int)
    (rangeStatements : Option (List (Int × List Statement))) (nonrev : Bool)
    (r eC vC : Int) (attrRand : Int → Int) (freshRand : Int) :
    BuildResult (DisclosureProofBuilder × Option (Option NonRevocationProofBuilder)) :=
  match getUndisclosedAttributes disclosedAttributes ic.attributes.length with
  | none => .panicked
  | some undisclosed =>
    match rpStructuresOf disclosedAttributes rangeStatements with
    | .error e => .failed e
    | .ok rps =>
      if nonrev = false then
        .ok (initialDisclosureBuilder ic disclosedAttributes undisclosed rps
              r eC vC attrRand, ic.nonrevCache)
      else
        match ic.nonRevocationWitness with
        | none => .failed "cannot prove nonrevocation: credential has no witness"
        | some w =>
          match ic.NonrevIndex with
          | .error e => .failed e
          | .ok revIdx =>
            match ic.nonrevConsumeBuilder ops freshRand w with
            | .error e => .failed e
            | .ok (nb, cache2) =>
              .ok ({ initialDisclosureBuilder ic disclosedAttributes undisclosed rps
                      r eC vC attrRand with
                     nonrevBuilder := some nb
                     attrRandomizers := Function.update attrRand revIdx nb.randomizer },
                   cache2)

/-- `Credential.CreateDisclosureProof` from `credential.go`: build the
builder, commit (the `"secretkey"` randomiser `skRand` sampled by the
challenge machinery made explicit), derive the Fiat-Shamir challenge
(`challengeFn` — modelled from the spec, `ProofBuilderList.Challenge` is not
part of the provided sources), and create the proof. -/
def Credential.CreateDisclosureProof (hash : Int → Int) (ops : RevOps)
    (ic : Credential) (disclosedAttributes : List Int)
    (rangeStatements : Option (List (Int × List Statement))) (nonrev : Bool)
    (context nonce1 : Int) (r eC vC : Int) (attrRand : Int → Int)
    (freshRand skRand : Int) (challengeFn : Int → Int → List Int → Int) :
    BuildResult ProofD :=
  match ic.CreateDisclosureProofBuilder ops disclosedAttributes rangeStatements
      nonrev r eC vC attrRand freshRand with
  | .panicked => .panicked
  | .failed e => .failed e
  | .ok (d, _) =>
    match d.Commit ops [("secretkey", skRand)] with
    | none => .failed "commitment failed"
    | some (d2, list) =>
      d2.CreateProof hash ops (challengeFn context nonce1 list) |> .ok

/-- The builder state after the `Z`-accumulation phase of `Commit`:
`attrRandomizers[0]` holds the `"secretkey"` randomiser and `z` the fully
accumulated commitment. -/
def committedBuilder (d : DisclosureProofBuilder) (rds : List (String × Int)) :
    DisclosureProofBuilder :=
  { d with
    attrRandomizers :=
      Function.update d.attrRandomizers 0 ((rds.lookup "secretkey").getD 0)
    z := (d.z * d.randomizedSignature.A ^ d.eCommit.toNat *
           d.pk.S ^ d.vCommit.toNat *
           (d.undisclosedAttributes.map fun v =>
             d.pk.R.getD v.toNat 0 ^
               ((Function.update d.attrRandomizers 0
                  ((rds.lookup "secretkey").getD 0)) v).toNat).prod) % d.pk.N }

/-! ### Interleaving model of the single-slot builder cache

`NonrevPrepareCache` and `nonrevConsumeBuilder` race on the credential's
one-slot channel.  The model abstracts builders to allocation-ordered ids and
each channel operation (`select` receive, non-blocking send) to one atomic
step; the non-atomic `Prepare` body is split into a take/build step and a
put step, with arbitrary interleaving in between. -/

/-- State of the cache interleavings: the slot's content, the builders held
by in-flight `Prepare` calls, the builders consumed by proofs so far, and the
next fresh id. -/
structure CacheModelState where
  slot : Option Nat
  pendingPrep : List Nat
  consumed : List Nat
  nextId : Nat
deriving DecidableEq

/-- Atomic steps of the cache protocol.  `prepareTake`/`prepareBuild` are the
`select` at the start of `NonrevPrepareCache` (take the cached builder, or
build a fresh one when the slot is empty); `preparePutOk`/`preparePutDrop`
are its final non-blocking send (refill the slot, or discard the builder when
another goroutine filled it meanwhile); `consumeTake`/`consumeBuild` are
`nonrevConsumeBuilder` (consume the cached builder without ever returning it,
or build and consume a fresh one). -/
inductive CacheStep : CacheModelState → CacheModelState → Prop where
  | prepareTake (s : CacheModelState) (b : Nat) :
      s.slot = some b →
      CacheStep s { s with slot := none, pendingPrep := b :: s.pendingPrep }
  | prepareBuild (s : CacheModelState) :
      s.slot = none →
      CacheStep s { s with pendingPrep := s.nextId :: s.pendingPrep, nextId := s.nextId + 1 }
  | preparePutOk (s : CacheModelState) (b : Nat) :
      b ∈ s.pendingPrep → s.slot = none →
      CacheStep s { s with slot := some b, pendingPrep := s.pendingPrep.erase b }
  | preparePutDrop (s : CacheModelState) (b b2 : Nat) :
      b ∈ s.pendingPrep → s.slot = some b2 →
      CacheStep s { s with pendingPrep := s.pendingPrep.erase b }
  | consumeTake (s : CacheModelState) (b : Nat) :
      s.slot = some b →
      CacheStep s { s with slot := none, consumed := b :: s.consumed }
  | consumeBuild (s : CacheModelState) :
      s.slot = none →
      CacheStep s { s with consumed := s.nextId :: s.consumed, nextId := s.nextId + 1 }

/-- The initial cache state: channel empty, nothing in flight or consumed. -/
def initialCacheState : CacheModelState :=
  { slot := none, pendingPrep := [], consumed := [], nextId := 0 }

/-- A state reachable by some interleaving of `Prepare` and consume steps. -/
def CacheReachable (s : CacheModelState) : Prop :=
  Relation.ReflTransGen CacheStep initialCacheState s

/-- Inductive invariant of the cache protocol: consumed ids are distinct and
disjoint from both the slot and the in-flight builders, in-flight builders
are distinct and disjoint from the slot, and all ids are below `nextId`. -/
def CacheInv (s : CacheModelState) : Prop :=
  s.consumed.Nodup ∧ s.pendingPrep.Nodup ∧
  (∀ b, s.slot = some b → b ∉ s.pendingPrep ∧ b ∉ s.consumed ∧ b < s.nextId) ∧
  (∀ b ∈ s.pendingPrep, b ∉ s.consumed ∧ b < s.nextId) ∧
  (∀ b ∈ s.consumed, b < s.nextId)

/-! ### Shared concrete instances (used by witnesses) -/

/-- A small concrete public key. -/
def smallPk : PublicKey :=
  { N := 5, Z := 3, S := 2, R := [3, 4],
    Params := { Le := 2, LePrime := 2, Lm := 10, LRA := 3,
                LeCommit := 4, LmCommit := 4, LvCommit := 4 } }

/-- A concrete instantiation of the opaque revocation operations. -/
def trivialRevOps : RevOps :=
  { newProofCommit := fun _ _ _ => ([0, 0, 0, 0, 0], 0)
    update := fun c cs _ => (c, cs)
    buildProof := fun _ _ => { Responses := [("alpha", 1), ("beta", 2)] } }

/-- A concrete credential without a revocation witness. -/
def smallCred : Credential :=
  { signature := { A := 1, E := 3, V := 0, KeyshareP := none }
    pk := smallPk
    attributes := [1]
    nonRevocationWitness := none
    nonrevCache := none }

/-- A concrete credential carrying a revocation witness on attribute 0. -/
def revCred : Credential :=
  { signature := { A := 1, E := 3, V := 0, KeyshareP := none }
    pk := smallPk
    attributes := [7]
    nonRevocationWitness := some { E := 7, accIndex := 0 }
    nonrevCache := none }

/-- The non-revocation builder that `revCred.CreateDisclosureProofBuilder`
builds freshly (under `trivialRevOps`, with sampled randomiser 42). -/
def revCredNRB : NonRevocationProofBuilder :=
  { pk := smallPk, witness := { E := 7, accIndex := 0 }, commit := some 0,
    commitments := some [0, 0, 0, 0, 0], randomizer := 42, index := 0 }

/-- The disclosure-proof builder that `revCred.CreateDisclosureProofBuilder`
returns (disclosing nothing, no range statements, non-revocation enabled). -/
def revCredBuilder : DisclosureProofBuilder :=
  { randomizedSignature :=
      CLSignature.Randomize { A := 1, E := 3, V := 0, KeyshareP := none } smallPk 0
    eCommit := 0
    vCommit := 0
    attrRandomizers := Function.update (fun _ => 9) 0 42
    z := 1
    disclosedAttributes := []
    undisclosedAttributes := [0]
    pk := smallPk
    attributes := [7]
    nonrevBuilder := some revCredNRB
    rpStructures := none
    rpCommits := none }

/-- A concrete disclosure-proof builder over `smallPk` (one hidden
attribute, no sub-proofs), used to exercise `Commit`. -/
def smallBuilder : DisclosureProofBuilder :=
  { randomizedSignature := { A := 2, E := 3, V := 0, KeyshareP := none }
    eCommit := 1
    vCommit := 1
    attrRandomizers := fun _ => 0
    z := 1
    disclosedAttributes := []
    undisclosedAttributes := [0]
    pk := smallPk
    attributes := [1]
    nonrevBuilder := none
    rpStructures := none
    rpCommits := none }

/-! ### Modular-arithmetic toolbox -/

theorem intCast_emod_cancel (a N : Int) (hN : 0 < N) :
    ((a % N : Int) : ZMod N.toNat) = (a : ZMod N.toNat) := by
  have h : ((N.toNat : Int)) = N := Int.toNat_of_nonneg hN.le
  rw [ZMod.intCast_eq_intCast_iff', h]
  exact Int.emod_emod_of_dvd a dvd_rfl

theorem emod_eq_emod_of_cast_eq (a b N : Int) (hN : 0 < N)
    (h : ((a : ZMod N.toNat) = (b : ZMod N.toNat))) : a % N = b % N := by
  have hcast : ((N.toNat : Int)) = N := Int.toNat_of_nonneg hN.le
  have := (ZMod.intCast_eq_intCast_iff' a b N.toNat).mp h
  rwa [hcast] at this

/-- For a base `S` coprime to a positive modulus `N`, `ModPow` always succeeds
and computes the `e`-th power of the unit of `S` in `ZMod N.toNat`. -/
theorem modPow_unit_exists (S N : Int) (hN : 0 < N) (hS : 0 ≤ S)
    (hg : Int.gcd S N = 1) :
    ∃ u : (ZMod N.toNat)ˣ, ((u : (ZMod N.toNat)ˣ) : ZMod N.toNat) = (S : ZMod N.toNat) ∧
      ∀ e : Int, ∃ x, ModPow S e N = some x ∧
        ((x : ZMod N.toNat) = ((u ^ e : (ZMod N.toNat)ˣ) : ZMod N.toNat)) := by
  have hco : Nat.Coprime S.toNat N.toNat := by
    have h1 : S.natAbs = S.toNat := by
      omega
    have h2 : N.natAbs = N.toNat := by
      omega
    have : Int.gcd S N = Nat.gcd S.natAbs N.natAbs := rfl
    rw [this, h1, h2] at hg
    exact hg
  refine ⟨ZMod.unitOfCoprime S.toNat hco, ?_, ?_⟩
  · rw [ZMod.coe_unitOfCoprime]
    have : ((S.toNat : Int) : ZMod N.toNat) = (S : ZMod N.toNat) := by
      rw [Int.toNat_of_nonneg hS]
    rw [← this]
    push_cast
    ring
  · intro e
    set u := ZMod.unitOfCoprime S.toNat hco with hu
    have huS : ((u : (ZMod N.toNat)ˣ) : ZMod N.toNat) = (S : ZMod N.toNat) := by
      rw [hu, ZMod.coe_unitOfCoprime]
      have : ((S.toNat : Int) : ZMod N.toNat) = (S : ZMod N.toNat) := by
        rw [Int.toNat_of_nonneg hS]
      rw [← this]
      push_cast
      ring
    by_cases he : 0 ≤ e
    · refine ⟨S ^ e.toNat % N, ?_, ?_⟩
      · simp [ModPow, he]
      · rw [intCast_emod_cancel _ _ hN]
        push_cast
        rw [← huS, ← Units.val_pow_eq_pow_val]
        congr 1
        rw [← zpow_natCast u e.toNat, Int.toNat_of_nonneg he]
    · -- negative exponent: base is inverted first
      have hinv : modInverse S N = some (Int.gcdA S N % N) := by
        simp [modInverse, hg]
      have hbezout : (1 : Int) = S * Int.gcdA S N + N * Int.gcdB S N := by
        have := Int.gcd_eq_gcd_ab S N
        rw [hg] at this
        exact_mod_cast this
      have hNcast : ((N : Int) : ZMod N.toNat) = 0 := by
        have h : ((N.toNat : Int)) = N := Int.toNat_of_nonneg hN.le
        rw [← h]
        push_cast
        exact ZMod.natCast_self N.toNat
      have hmulinv : ((Int.gcdA S N % N : Int) : ZMod N.toNat) * ((u : (ZMod N.toNat)ˣ) : ZMod N.toNat) = 1 := by
        rw [intCast_emod_cancel _ _ hN, huS]
        have : ((1 : Int) : ZMod N.toNat) = ((S * Int.gcdA S N + N * Int.gcdB S N : Int) : ZMod N.toNat) := by
          exact_mod_cast congrArg (fun z : Int => ((z : ZMod N.toNat))) hbezout
        push_cast at this
        rw [hNcast] at this
        simp at this
        rw [mul_comm]
        exact this.symm
      have hinvcast : ((Int.gcdA S N % N : Int) : ZMod N.toNat) = ((u⁻¹ : (ZMod N.toNat)ˣ) : ZMod N.toNat) := by
        calc ((Int.gcdA S N % N : Int) : ZMod N.toNat)
            = ((Int.gcdA S N % N : Int) : ZMod N.toNat) * (((u : (ZMod N.toNat)ˣ) : ZMod N.toNat) * ((u⁻¹ : (ZMod N.toNat)ˣ) : ZMod N.toNat)) := by
              rw [← Units.val_mul, mul_inv_cancel]
              simp
          _ = (((Int.gcdA S N % N : Int) : ZMod N.toNat) * ((u : (ZMod N.toNat)ˣ) : ZMod N.toNat)) * ((u⁻¹ : (ZMod N.toNat)ˣ) : ZMod N.toNat) := by
              ring
          _ = ((u⁻¹ : (ZMod N.toNat)ˣ) : ZMod N.toNat) := by
              rw [hmulinv, one_mul]
      refine ⟨(Int.gcdA S N % N) ^ (-e).toNat % N, ?_, ?_⟩
      · simp only [ModPow, if_neg he, hinv, Option.map_some']
      · rw [intCast_emod_cancel _ _ hN]
        push_cast
        rw [hinvcast, ← Units.val_pow_eq_pow_val]
        congr 1
        have he2 : e = -((-e).toNat : Int) := by omega
        rw [inv_pow, ← zpow_natCast u (-e).toNat, ← zpow_neg, ← he2]

/-- Unfolding characterisation of `CLSignature.Verify`. -/
theorem verify_true_iff (hash : Int → Int) (primeTest : Int → Bool)
    (s : CLSignature) (pk : PublicKey) (ms : List Int) :
    s.Verify hash primeTest pk ms = true ↔
      (2 : Int) ^ (pk.Params.Le - 1) ≤ s.E ∧
      s.E ≤ (2 : Int) ^ (pk.Params.LePrime - 1) + 2 ^ (pk.Params.Le - 1) ∧
      primeTest s.E = true ∧
      ∃ Sv, ModPow pk.S s.V pk.N = some Sv ∧
        pk.Z = s.A ^ s.E.toNat % pk.N *
          keyshareAdjust s.KeyshareP (RepresentToPublicKey hash pk ms) * Sv % pk.N := by
  unfold CLSignature.Verify
  split_ifs with h1 h2 h3
  · simp only [Bool.false_eq_true, false_iff]
    rintro ⟨ha, -, -, -⟩
    exact absurd ha (not_le.mpr h1)
  · simp only [Bool.false_eq_true, false_iff]
    rintro ⟨-, hb, -, -⟩
    exact absurd hb (not_le.mpr h2)
  · simp only [Bool.false_eq_true, false_iff]
    rintro ⟨-, -, hc, -⟩
    rw [h3] at hc
    exact Bool.false_ne_true hc
  · cases hm : ModPow pk.S s.V pk.N with
    | none =>
      simp only [hm, Bool.false_eq_true, false_iff]
      rintro ⟨-, -, -, Sv, hSv, -⟩
      exact Option.noConfusion hSv
    | some Sv =>
      simp only [hm, decide_eq_true_eq]
      constructor
      · intro h
        have hpt : primeTest s.E = true := by
          cases hb : primeTest s.E
          · exact absurd hb h3
          · rfl
        exact ⟨not_lt.mp h1, not_lt.mp h2, hpt, Sv, rfl, h⟩
      · rintro ⟨-, -, -, Sv2, hSv2, h⟩
        rw [Option.some.inj hSv2]
        exact h

/-- C1 (counterexample): the claim quantifies over every signature accepted by
`Verify`, but `Randomize` drops `KeyshareP`, so for a valid signature carrying
a `KeyshareP` factor the randomised signature no longer verifies.  Concretely,
with `N = 5`, `S = 2`, `Z = 2`, `R = [3]`, message `[1]` and the valid
signature `(A, E, V, KeyshareP) = (1, 3, 0, 4)`, randomising with `r = 0`
(inside `[0, 2^LRA)`) yields a signature that `Verify` rejects. -/
theorem randomize_keyshare_cex :
    (CLSignature.Verify (fun z => z) (fun e => decide (e = 3))
        { A := 1, E := 3, V := 0, KeyshareP := some 4 }
        { N := 5, Z := 2, S := 2, R := [3],
          Params := { Le := 2, LePrime := 2, Lm := 10, LRA := 3,
                      LeCommit := 4, LmCommit := 4, LvCommit := 4 } } [1] = true)
    ∧ (0 : Int) ≤ 0 ∧ (0 : Int) < 2 ^ 3
    ∧ (CLSignature.Verify (fun z => z) (fun e => decide (e = 3))
        (CLSignature.Randomize { A := 1, E := 3, V := 0, KeyshareP := some 4 }
          { N := 5, Z := 2, S := 2, R := [3],
            Params := { Le := 2, LePrime := 2, Lm := 10, LRA := 3,
                        LeCommit := 4, LmCommit := 4, LvCommit := 4 } } 0)
        { N := 5, Z := 2, S := 2, R := [3],
          Params := { Le := 2, LePrime := 2, Lm := 10, LRA := 3,
                      LeCommit := 4, LmCommit := 4, LvCommit := 4 } } [1] = false) := by
  decide

/-- C1 (amended): for a public key with `N > 0` and `S` a nonnegative unit
modulo `N` (the spec's data-model invariant `S ∈ Z*_N`), and a valid signature
`s` *without* a `KeyshareP` factor, `Randomize` with any sampled
`r ∈ [0, 2^LRA)` returns exactly `(A * S^r mod N, E, V - E*r)` with `E` copied
unchanged, and the result still verifies — the CL equation holds even though
the exponent `V' = V - E*r` may be negative. -/
theorem randomize_correct (hash : Int → Int) (primeTest : Int → Bool)
    (pk : PublicKey) (s : CLSignature) (ms : List Int) (r : Int)
    (hN : 0 < pk.N) (hS : 0 ≤ pk.S) (hg : Int.gcd pk.S pk.N = 1)
    (hK : s.KeyshareP = none) (hr : 0 ≤ r) (hr2 : r < 2 ^ pk.Params.LRA)
    (hv : s.Verify hash primeTest pk ms = true) :
    s.Randomize pk r =
      { A := s.A * (pk.S ^ r.toNat % pk.N) % pk.N, E := s.E,
        V := s.V - s.E * r, KeyshareP := none } ∧
    (s.Randomize pk r).Verify hash primeTest pk ms = true := by
  refine ⟨rfl, ?_⟩
  rw [verify_true_iff] at hv ⊢
  obtain ⟨ha, hb, hc, Sv, hSv, heq⟩ := hv
  have hE0 : (0 : Int) ≤ s.E := le_trans (by positivity) ha
  obtain ⟨u, huS, hMP⟩ := modPow_unit_exists pk.S pk.N hN hS hg
  obtain ⟨xV, hxV, hxVc⟩ := hMP s.V
  rw [hxV] at hSv
  obtain rfl : xV = Sv := Option.some.inj hSv
  obtain ⟨Sv2, hSv2, hSv2c⟩ := hMP (s.V - s.E * r)
  rw [hK] at heq
  simp only [keyshareAdjust] at heq
  refine ⟨ha, hb, hc, Sv2, hSv2, ?_⟩
  show pk.Z =
    (s.A * (pk.S ^ r.toNat % pk.N) % pk.N) ^ s.E.toNat % pk.N *
      RepresentToPublicKey hash pk ms * Sv2 % pk.N
  rw [heq]
  have hcc : ∀ a : Int, ((a % pk.N : Int) : ZMod pk.N.toNat) = (a : ZMod pk.N.toNat) :=
    fun a => intCast_emod_cancel a pk.N hN
  apply emod_eq_emod_of_cast_eq _ _ _ hN
  simp only [Int.cast_mul, Int.cast_pow, hcc]
  rw [hxVc, hSv2c, ← huS, mul_pow, ← pow_mul, ← Units.val_pow_eq_pow_val]
  have hcomb :
      ((u ^ (r.toNat * s.E.toNat) : (ZMod pk.N.toNat)ˣ) : ZMod pk.N.toNat) *
        ((u ^ (s.V - s.E * r) : (ZMod pk.N.toNat)ˣ) : ZMod pk.N.toNat) =
      ((u ^ s.V : (ZMod pk.N.toNat)ˣ) : ZMod pk.N.toNat) := by
    rw [← Units.val_mul]
    congr 1
    rw [← zpow_natCast u (r.toNat * s.E.toNat), ← zpow_add]
    congr 1
    push_cast [Int.toNat_of_nonneg hr, Int.toNat_of_nonneg hE0]
    ring
  rw [← hcomb]
  ring

/-- Witness for `randomize_correct` at a concrete key, signature and message:
`N = 5`, `S = 2`, `Z = 3`, `R = [3]`, signature `(1, 3, 0)` on message `[1]`,
randomiser `r = 1`. -/
theorem randomize_correct_witness :
    ((0 : Int) < 5 ∧ (0 : Int) ≤ 2 ∧ Int.gcd 2 5 = 1 ∧ (0 : Int) ≤ 1 ∧ (1 : Int) < 2 ^ 3 ∧
      CLSignature.Verify (fun z => z) (fun e => decide (e = 3))
        { A := 1, E := 3, V := 0, KeyshareP := none }
        { N := 5, Z := 3, S := 2, R := [3],
          Params := { Le := 2, LePrime := 2, Lm := 10, LRA := 3,
                      LeCommit := 4, LmCommit := 4, LvCommit := 4 } } [1] = true) ∧
    (CLSignature.Randomize { A := 1, E := 3, V := 0, KeyshareP := none }
        { N := 5, Z := 3, S := 2, R := [3],
          Params := { Le := 2, LePrime := 2, Lm := 10, LRA := 3,
                      LeCommit := 4, LmCommit := 4, LvCommit := 4 } } 1 =
      { A := (1 : Int) * ((2 : Int) ^ (1 : Int).toNat % 5) % 5, E := 3,
        V := (0 : Int) - 3 * 1, KeyshareP := none } ∧
     CLSignature.Verify (fun z => z) (fun e => decide (e = 3))
        (CLSignature.Randomize { A := 1, E := 3, V := 0, KeyshareP := none }
          { N := 5, Z := 3, S := 2, R := [3],
            Params := { Le := 2, LePrime := 2, Lm := 10, LRA := 3,
                        LeCommit := 4, LmCommit := 4, LvCommit := 4 } } 1)
        { N := 5, Z := 3, S := 2, R := [3],
          Params := { Le := 2, LePrime := 2, Lm := 10, LRA := 3,
                      LeCommit := 4, LmCommit := 4, LvCommit := 4 } } [1] = true) :=
  ⟨⟨by decide, by decide, by decide, by decide, by decide, by decide⟩,
    randomize_correct (fun z => z) (fun e => decide (e = 3))
      { N := 5, Z := 3, S := 2, R := [3],
        Params := { Le := 2, LePrime := 2, Lm := 10, LRA := 3,
                    LeCommit := 4, LmCommit := 4, LvCommit := 4 } }
      { A := 1, E := 3, V := 0, KeyshareP := none } [1] 1
      (by decide) (by decide) (by decide) rfl (by decide) (by decide) (by decide)⟩

/-- C9: preparing the cache of a credential without a `NonRevocationWitness`
is a silent no-op: `NonrevPrepareCache` returns no error and leaves the
credential — in particular its cache slot — completely unchanged. -/
theorem prepareCache_no_witness (ops : RevOps) (freshRand : Int)
    (ic : Credential) (h : ic.nonRevocationWitness = none) :
    ic.NonrevPrepareCache ops freshRand = (ic, none) := by
  unfold Credential.NonrevPrepareCache
  rw [h]

/-- Witness for `prepareCache_no_witness` on a concrete credential. -/
theorem prepareCache_no_witness_witness :
    smallCred.nonRevocationWitness = none ∧
    smallCred.NonrevPrepareCache trivialRevOps 0 = (smallCred, none) :=
  ⟨rfl, prepareCache_no_witness trivialRevOps 0 smallCred rfl⟩

/-- C6 (counterexample): `UpdateCommit` on an *uninitialised* builder (no
`commit`, no commitments) returns an error even when the witness's
accumulator index is not newer, so the claim's unconditional "returns
success" fails. -/
theorem updateCommit_uninitialized_cex :
    (({ E := 0, accIndex := 0 } : Witness).accIndex ≤
      ({ pk := smallPk, witness := { E := 0, accIndex := 0 }, commit := none,
         commitments := none, randomizer := 0,
         index := 0 } : NonRevocationProofBuilder).index) ∧
    NonRevocationProofBuilder.UpdateCommit trivialRevOps
      { pk := smallPk, witness := { E := 0, accIndex := 0 }, commit := none,
        commitments := none, randomizer := 0, index := 0 }
      { E := 0, accIndex := 0 } =
      .error "cannot update noninitialized NonRevocationProofBuilder" :=
  ⟨le_refl 0, rfl⟩

/-- C6 (amended): on an *initialised* builder (a `commit` is present and at
least 5 commitments are cached), `UpdateCommit` with a witness whose
accumulator index is less than or equal to the builder's index succeeds and
returns the builder with every field unchanged. -/
theorem updateCommit_noop (ops : RevOps) (b : NonRevocationProofBuilder)
    (w : Witness) (hc : b.commit.isSome = true)
    (hlen : 5 ≤ (b.commitments.getD []).length)
    (hidx : w.accIndex ≤ b.index) :
    b.UpdateCommit ops w = .ok b := by
  cases hcc : b.commit with
  | none => rw [hcc] at hc; simp at hc
  | some c =>
    simp only [NonRevocationProofBuilder.UpdateCommit, hcc]
    rw [if_neg (by omega), if_pos hidx]

/-- Witness for `updateCommit_noop` on a concrete initialised builder. -/
theorem updateCommit_noop_witness :
    ((revCredNRB.commit.isSome = true) ∧ 5 ≤ (revCredNRB.commitments.getD []).length ∧
      ({ E := 7, accIndex := 0 } : Witness).accIndex ≤ revCredNRB.index) ∧
    revCredNRB.UpdateCommit trivialRevOps { E := 7, accIndex := 0 } = .ok revCredNRB :=
  ⟨⟨rfl, by decide, le_refl 0⟩,
    updateCommit_noop trivialRevOps revCredNRB { E := 7, accIndex := 0 }
      rfl (by decide) (le_refl 0)⟩

/-- C7 (counterexample): `Commit` multiplies the accumulated `Z` in place, so
re-invoking `Commit` on the same (already committed) builder with the
identical randomisers map returns a different commitment list: on a concrete
builder the first call returns `[2, 2]` and the immediate second call
`[2, 4]`. -/
theorem commit_reinvoke_cex :
    ((smallBuilder.Commit trivialRevOps [("secretkey", 1)]).map (fun p => p.2) =
      some [2, 2]) ∧
    (((smallBuilder.Commit trivialRevOps [("secretkey", 1)]).bind
        (fun p => p.1.Commit trivialRevOps [("secretkey", 1)])).map (fun p => p.2) =
      some [2, 4]) ∧
    ([2, 2] : List Int) ≠ [2, 4] := by
  refine ⟨by decide, by decide, by decide⟩

/-- C7 (amended): `Commit` is deterministic in its inputs — two invocations
from equal builder states with equal randomisers maps return equal
commitment lists.  (Re-invocation on the *same* builder object is not
covered: `Commit` mutates the accumulated `Z`, see the counterexample.) -/
theorem commit_deterministic (ops : RevOps) (d1 d2 : DisclosureProofBuilder)
    (rds1 rds2 : List (String × Int)) (hd : d1 = d2) (hr : rds1 = rds2) :
    (d1.Commit ops rds1).map (fun p => p.2) =
      (d2.Commit ops rds2).map (fun p => p.2) := by
  rw [hd, hr]

/-- Witness for `commit_deterministic` on a concrete builder. -/
theorem commit_deterministic_witness :
    (smallBuilder = smallBuilder ∧
      ([("secretkey", 1)] : List (String × Int)) = [("secretkey", 1)]) ∧
    (smallBuilder.Commit trivialRevOps [("secretkey", 1)]).map (fun p => p.2) =
      (smallBuilder.Commit trivialRevOps [("secretkey", 1)]).map (fun p => p.2) :=
  ⟨⟨rfl, rfl⟩, commit_deterministic trivialRevOps smallBuilder smallBuilder
    [("secretkey", 1)] [("secretkey", 1)] rfl rfl⟩

/-- The marking loop succeeds exactly when every disclosed index is within
`[0, numAttributes)`. -/
theorem markCheck_isSome (l : List Int) : ∀ check : List Bool,
    (markCheck check l).isSome = true ↔ ∀ v ∈ l, 0 ≤ v ∧ v < (check.length : Int) := by
  induction l with
  | nil => intro check; simp [markCheck]
  | cons v rest ih =>
    intro check
    simp only [markCheck]
    by_cases h : 0 ≤ v ∧ v < (check.length : Int)
    · rw [if_pos h, ih]
      simp only [List.length_set]
      constructor
      · intro hall x hx
        rcases List.mem_cons.mp hx with rfl | hx2
        · exact h
        · exact hall x hx2
      · intro hall x hx
        exact hall x (List.mem_cons_of_mem v hx)
    · rw [if_neg h]
      simp only [Option.isSome_none, Bool.false_eq_true, false_iff]
      intro hall
      exact h (hall v (List.mem_cons_self v rest))

/-- The marking loop preserves the length and sets exactly the flags of the
listed (in-range) indices. -/
theorem markCheck_some (l : List Int) : ∀ check check2 : List Bool,
    markCheck check l = some check2 →
    check2.length = check.length ∧
    ∀ i : Nat, i < check.length →
      check2.getD i false = (check.getD i false || decide ((i : Int) ∈ l)) := by
  induction l with
  | nil =>
    intro check check2 h
    obtain rfl : check = check2 := Option.some.inj h
    refine ⟨rfl, fun i _ => ?_⟩
    simp
  | cons v rest ih =>
    intro check check2 h
    simp only [markCheck] at h
    by_cases hcond : 0 ≤ v ∧ v < (check.length : Int)
    · rw [if_pos hcond] at h
      obtain ⟨hlen, hget⟩ := ih _ _ h
      have hlenset : (check.set v.toNat true).length = check.length := List.length_set ..
      refine ⟨by rw [hlen, hlenset], fun i hi => ?_⟩
      rw [hget i (by rw [hlenset]; exact hi)]
      by_cases hiv : i = v.toNat
      · have h1 : (check.set v.toNat true).getD i false = true := by
          rw [List.getD_eq_getElem?_getD, hiv, List.getElem?_set_self (hiv ▸ hi),
            Option.getD_some]
        have h2 : ((i : Int) ∈ v :: rest) := by
          have hv : (i : Int) = v := by omega
          rw [hv]
          exact List.mem_cons_self v rest
        rw [h1, decide_eq_true h2]
        simp
      · have h1 : (check.set v.toNat true).getD i false = check.getD i false := by
          rw [List.getD_eq_getElem?_getD, List.getElem?_set_ne (by omega : v.toNat ≠ i),
            ← List.getD_eq_getElem?_getD]
        have h2 : ((i : Int) ∈ v :: rest) ↔ ((i : Int) ∈ rest) := by
          simp only [List.mem_cons]
          constructor
          · rintro (heq | hm)
            · exfalso; omega
            · exact hm
          · exact Or.inr
        rw [h1]
        simp only [h2]
    · rw [if_neg hcond] at h
      exact Option.noConfusion h

/-- `getUndisclosedAttributes` succeeds exactly when every disclosed index is
within `[0, numAttributes)`. -/
theorem getUndisclosed_isSome_iff (disclosed : List Int) (n : Nat) :
    (getUndisclosedAttributes disclosed n).isSome = true ↔
      ∀ v ∈ disclosed, 0 ≤ v ∧ v < (n : Int) := by
  unfold getUndisclosedAttributes
  rw [Option.isSome_map']
  rw [markCheck_isSome]
  simp [List.length_replicate]

/-- On success, `getUndisclosedAttributes` returns exactly the ascending
complement of the disclosed indices in `0..numAttributes-1`. -/
theorem getUndisclosed_some_eq (disclosed : List Int) (n : Nat) (l : List Int)
    (h : getUndisclosedAttributes disclosed n = some l) :
    l = ((List.range n).filter fun (i : Nat) => decide ((i : Int) ∉ disclosed)).map
          (fun (i : Nat) => (i : Int)) := by
  unfold getUndisclosedAttributes at h
  rw [Option.map_eq_some'] at h
  obtain ⟨check2, hmc, hl⟩ := h
  obtain ⟨hlen, hget⟩ := markCheck_some disclosed _ _ hmc
  rw [List.length_replicate] at hlen hget
  subst hl
  rw [hlen]
  congr 1
  apply List.filter_congr
  intro i hi
  have hin : i < n := List.mem_range.mp hi
  rw [hget i hin]
  have hrep : (List.replicate n false).getD i false = false := by
    rw [List.getD_eq_getElem?_getD, List.getElem?_replicate]
    split <;> rfl
  rw [hrep, Bool.false_or, decide_not]

/-- C10: `getUndisclosedAttributes(disclosed, numAttributes)` is well-defined
exactly when every disclosed index lies in `[0, numAttributes)`; on success
it returns precisely the ascending complement of the disclosed set within
`{0..numAttributes-1}`; and an out-of-range disclosed index makes
`CreateDisclosureProofBuilder` panic (an out-of-bounds access), not return an
error. -/
theorem getUndisclosed_spec :
    (∀ (disclosed : List Int) (n : Nat),
      ((getUndisclosedAttributes disclosed n).isSome = true ↔
        ∀ v ∈ disclosed, 0 ≤ v ∧ v < (n : Int)) ∧
      ∀ l, getUndisclosedAttributes disclosed n = some l →
        l = ((List.range n).filter fun (i : Nat) => decide ((i : Int) ∉ disclosed)).map
              (fun (i : Nat) => (i : Int)) ∧
        l.Pairwise (· < ·)) ∧
    ∀ (ops : RevOps) (ic : Credential) (disclosed : List Int)
      (rangeStatements : Option (List (Int × List Statement))) (nonrev : Bool)
      (r eC vC : Int) (attrRand : Int → Int) (freshRand : Int),
      (∃ v ∈ disclosed, ¬(0 ≤ v ∧ v < (ic.attributes.length : Int))) →
      ic.CreateDisclosureProofBuilder ops disclosed rangeStatements nonrev
        r eC vC attrRand freshRand = .panicked := by
  constructor
  · intro disclosed n
    refine ⟨getUndisclosed_isSome_iff disclosed n, fun l hl => ?_⟩
    have heq := getUndisclosed_some_eq disclosed n l hl
    refine ⟨heq, ?_⟩
    rw [heq]
    refine List.Pairwise.map _ (fun a b hab => ?_) (List.Pairwise.filter _ (List.pairwise_lt_range n))
    exact_mod_cast hab
  · intro ops ic disclosed rangeStatements nonrev r eC vC attrRand freshRand hbad
    have hnone : getUndisclosedAttributes disclosed ic.attributes.length = none := by
      rw [← Option.not_isSome_iff_eq_none]
      intro hs
      obtain ⟨v, hv, hout⟩ := hbad
      exact hout (((getUndisclosed_isSome_iff disclosed ic.attributes.length).mp hs) v hv)
    simp only [Credential.CreateDisclosureProofBuilder, hnone]

/-- Witness for `getUndisclosed_spec`: with 4 attributes and disclosed set
`{0, 2}` the undisclosed list is `[1, 3]`; with one attribute and disclosed
index 5 the builder constructor panics. -/
theorem getUndisclosed_spec_witness :
    (getUndisclosedAttributes [0, 2] 4 = some [1, 3] ∧
      ([1, 3] : List Int) =
        ((List.range 4).filter fun (i : Nat) => decide ((i : Int) ∉ ([0, 2] : List Int))).map
          (fun (i : Nat) => (i : Int)) ∧
      ([1, 3] : List Int).Pairwise (· < ·)) ∧
    ((5 : Int) ∈ ([5] : List Int) ∧ ¬((0 : Int) ≤ 5 ∧ (5 : Int) < (smallCred.attributes.length : Int))) ∧
    smallCred.CreateDisclosureProofBuilder trivialRevOps [5] none false 0 0 0
      (fun _ => 0) 0 = .panicked :=
  ⟨⟨by decide,
    (((getUndisclosed_spec.1 [0, 2] 4).2 [1, 3] (by decide)).1),
    (((getUndisclosed_spec.1 [0, 2] 4).2 [1, 3] (by decide)).2)⟩,
   ⟨by decide, by decide⟩,
   getUndisclosed_spec.2 trivialRevOps smallCred [5] none false 0 0 0 (fun _ => 0) 0
     ⟨5, by decide, by decide⟩⟩

/-- `buildRpStructures` rejects as soon as some range statement addresses a
disclosed index. -/
theorem buildRpStructures_error (disclosed : List Int) :
    ∀ lst : List (Int × List Statement),
      (∃ e ∈ lst, isUndisclosedAttribute disclosed e.1 = false) →
      buildRpStructures disclosed lst =
        .error "Range statements on revealed attributes are not supported" := by
  intro lst
  induction lst with
  | nil => rintro ⟨e, he, -⟩; exact absurd he (List.not_mem_nil e)
  | cons hd tl ih =>
    obtain ⟨idx, stmts⟩ := hd
    rintro ⟨e, he, hbad⟩
    by_cases hu : isUndisclosedAttribute disclosed idx = true
    · have htl : ∃ e ∈ tl, isUndisclosedAttribute disclosed e.1 = false := by
        rcases List.mem_cons.mp he with rfl | he2
        · rw [hu] at hbad; exact Bool.noConfusion hbad
        · exact ⟨e, he2, hbad⟩
      simp only [buildRpStructures, if_pos hu]
      rw [ih htl]
    · simp only [buildRpStructures, if_neg hu]

/-- A membership fact turns into a `contains` fact. -/
theorem contains_of_mem {a : Int} {l : List Int} (h : a ∈ l) :
    l.contains a = true := by
  simpa using h

/-- C8: a non-nil range-statement map with at least one key among the
disclosed indices makes `CreateDisclosureProofBuilder` — and therefore
`CreateDisclosureProof` — fail with the range-on-disclosed-attribute error,
producing no builder and no proof. -/
theorem range_on_disclosed_rejected (hash : Int → Int) (ops : RevOps)
    (ic : Credential) (disclosed : List Int) (lst : List (Int × List Statement))
    (nonrev : Bool) (context nonce1 r eC vC freshRand skRand : Int)
    (attrRand : Int → Int) (challengeFn : Int → Int → List Int → Int)
    (hd : ∀ v ∈ disclosed, 0 ≤ v ∧ v < (ic.attributes.length : Int))
    (hbad : ∃ e ∈ lst, e.1 ∈ disclosed) :
    ic.CreateDisclosureProofBuilder ops disclosed (some lst) nonrev r eC vC
        attrRand freshRand =
      .failed "Range statements on revealed attributes are not supported" ∧
    ic.CreateDisclosureProof hash ops disclosed (some lst) nonrev context nonce1
        r eC vC attrRand freshRand skRand challengeFn =
      .failed "Range statements on revealed attributes are not supported" := by
  have hs : (getUndisclosedAttributes disclosed ic.attributes.length).isSome = true :=
    (getUndisclosed_isSome_iff disclosed ic.attributes.length).mpr hd
  obtain ⟨u, hu⟩ := Option.isSome_iff_exists.mp hs
  have hberr : buildRpStructures disclosed lst =
      .error "Range statements on revealed attributes are not supported" := by
    apply buildRpStructures_error
    obtain ⟨e, he, hmem⟩ := hbad
    refine ⟨e, he, ?_⟩
    unfold isUndisclosedAttribute
    rw [contains_of_mem hmem]
    rfl
  have h1 : ic.CreateDisclosureProofBuilder ops disclosed (some lst) nonrev r eC vC
      attrRand freshRand =
      .failed "Range statements on revealed attributes are not supported" := by
    simp only [Credential.CreateDisclosureProofBuilder, hu, rpStructuresOf, hberr]
  refine ⟨h1, ?_⟩
  simp only [Credential.CreateDisclosureProof, h1]

/-- Witness for `range_on_disclosed_rejected`: a range statement on the
disclosed index 0. -/
theorem range_on_disclosed_rejected_witness :
    ((∀ v ∈ ([0] : List Int), 0 ≤ v ∧ v < (smallCred.attributes.length : Int)) ∧
      ∃ e ∈ [((0 : Int), ([] : List Statement))], e.1 ∈ ([0] : List Int)) ∧
    (smallCred.CreateDisclosureProofBuilder trivialRevOps [0]
        (some [(0, [])]) false 0 0 0 (fun _ => 0) 0 =
      .failed "Range statements on revealed attributes are not supported" ∧
     smallCred.CreateDisclosureProof (fun z => z) trivialRevOps [0]
        (some [(0, [])]) false 1 0 0 0 0 (fun _ => 0) 0 0 (fun _ _ _ => 0) =
      .failed "Range statements on revealed attributes are not supported") :=
  ⟨⟨by decide, ⟨(0, []), by simp, by decide⟩⟩,
    range_on_disclosed_rejected (fun z => z) trivialRevOps smallCred [0] [(0, [])]
      false 1 0 0 0 0 0 0 (fun _ => 0) (fun _ _ _ => 0)
      (by decide) ⟨(0, []), by simp, by decide⟩⟩

/-- `findRevIdx` returns the position (relative to the start counter) of an
attribute equal to the revocation scalar. -/
theorem findRevIdx_spec (e : Int) : ∀ (l : List Int) (start j : Int),
    findRevIdx e l start = some j →
    start ≤ j ∧ l.getD (j - start).toNat 0 = e := by
  intro l
  induction l with
  | nil => intro start j h; exact Option.noConfusion h
  | cons a rest ih =>
    intro start j h
    simp only [findRevIdx] at h
    by_cases ha : a = e
    · rw [if_pos ha] at h
      obtain rfl : start = j := Option.some.inj h
      refine ⟨le_refl _, ?_⟩
      simp [ha]
    · rw [if_neg ha] at h
      obtain ⟨h1, h2⟩ := ih (start + 1) j h
      refine ⟨by omega, ?_⟩
      have hstep : (j - start).toNat = (j - (start + 1)).toNat + 1 := by omega
      rw [hstep, List.getD_cons_succ]
      exact h2

/-- C4: when a disclosure-proof builder is created with `nonrev = true` on a
credential carrying a witness, `attrRandomizers[revIdx]` — with `revIdx` the
attribute index whose value equals the witness's `E` — is exactly the
randomiser of the consumed `NonRevocationProofBuilder`, and the
`NonRevocationProof` inside the `ProofD` produced by `CreateProof` has no
`"alpha"` key in its responses. -/
theorem nonrev_linkage (hash : Int → Int) (ops : RevOps) (ic : Credential)
    (disclosed : List Int) (rangeStatements : Option (List (Int × List Statement)))
    (r eC vC freshRand c : Int) (attrRand : Int → Int)
    (d : DisclosureProofBuilder) (cache2 : Option (Option NonRevocationProofBuilder))
    (w : Witness) (revIdx : Int) (nb : NonRevocationProofBuilder)
    (hW : ic.nonRevocationWitness = some w)
    (hidx : ic.NonrevIndex = .ok revIdx)
    (hres : ic.CreateDisclosureProofBuilder ops disclosed rangeStatements true
      r eC vC attrRand freshRand = .ok (d, cache2))
    (hnb : d.nonrevBuilder = some nb) :
    ic.attributes.getD revIdx.toNat 0 = w.E ∧
    d.attrRandomizers revIdx = nb.randomizer ∧
    ∀ p, (d.CreateProof hash ops c).NonRevocationProof = some p →
      ∀ x, ("alpha", x) ∉ p.Responses := by
  have hrev : ic.attributes.getD revIdx.toNat 0 = w.E := by
    unfold Credential.NonrevIndex at hidx
    simp only [hW] at hidx
    cases hf : findRevIdx w.E ic.attributes 0 with
    | none => rw [hf] at hidx; exact Except.noConfusion hidx
    | some j =>
      rw [hf] at hidx
      have hj : j = revIdx := Except.ok.inj hidx
      have hspec := findRevIdx_spec w.E ic.attributes 0 j hf
      rw [← hj]
      simpa using hspec.2
  refine ⟨hrev, ?_⟩
  unfold Credential.CreateDisclosureProofBuilder at hres
  cases hU : getUndisclosedAttributes disclosed ic.attributes.length with
  | none => rw [hU] at hres; exact BuildResult.noConfusion hres
  | some undisclosed =>
  simp only [hU] at hres
  cases hR : rpStructuresOf disclosed rangeStatements with
  | error e => simp only [hR] at hres; exact BuildResult.noConfusion hres
  | ok rps =>
  simp only [hR] at hres
  rw [if_neg (by simp)] at hres
  simp only [hW, hidx] at hres
  cases hC : ic.nonrevConsumeBuilder ops freshRand w with
  | error e => simp only [hC] at hres; exact BuildResult.noConfusion hres
  | ok pr =>
  obtain ⟨nb2, cache3⟩ := pr
  simp only [hC] at hres
  injection hres with hres2
  injection hres2 with hd2 hc2
  subst hd2
  have hnb2 : nb2 = nb := Option.some.inj (show some nb2 = some nb from hnb)
  subst hnb2
  constructor
  · exact Function.update_same revIdx nb2.randomizer attrRand
  · intro p hp x hmem
    simp only [DisclosureProofBuilder.CreateProof, Option.map_some'] at hp
    obtain rfl := Option.some.inj hp
    have hf2 := (List.mem_filter.mp hmem).2
    simp at hf2

/-- Witness for `nonrev_linkage` on `revCred`: the builder freshly built by
the consume path carries randomiser 42, which also lands in
`attrRandomizers[0]`, and the `"alpha"` response is removed. -/
theorem nonrev_linkage_witness :
    (revCred.nonRevocationWitness = some { E := 7, accIndex := 0 } ∧
      revCred.NonrevIndex = .ok 0 ∧
      revCred.CreateDisclosureProofBuilder trivialRevOps [] none true 0 0 0
        (fun _ => 9) 42 = .ok (revCredBuilder, none) ∧
      revCredBuilder.nonrevBuilder = some revCredNRB) ∧
    (revCred.attributes.getD (0 : Int).toNat 0 = ({ E := 7, accIndex := 0 } : Witness).E ∧
      revCredBuilder.attrRandomizers 0 = revCredNRB.randomizer ∧
      ∀ p, (revCredBuilder.CreateProof (fun z => z) trivialRevOps 5).NonRevocationProof =
          some p → ∀ x, ("alpha", x) ∉ p.Responses) :=
  ⟨⟨rfl, rfl, rfl, rfl⟩,
    nonrev_linkage (fun z => z) trivialRevOps revCred [] none 0 0 0 42 5
      (fun _ => 9) revCredBuilder none { E := 7, accIndex := 0 } 0 revCredNRB
      rfl rfl rfl rfl⟩

/-- The cache invariant holds initially. -/
theorem cacheInv_initial : CacheInv initialCacheState := by
  refine ⟨List.nodup_nil, List.nodup_nil, ?_, ?_, ?_⟩
  · intro b h; exact Option.noConfusion h
  · intro b h; exact absurd h (List.not_mem_nil b)
  · intro b h; exact absurd h (List.not_mem_nil b)

/-- Every atomic cache step preserves the invariant. -/
theorem cacheInv_step {s t : CacheModelState} (hstep : CacheStep s t)
    (hinv : CacheInv s) : CacheInv t := by
  obtain ⟨hcn, hpn, hslot, hpend, hcons⟩ := hinv
  cases hstep with
  | prepareTake b hb =>
    obtain ⟨hbp, hbc, hbn⟩ := hslot b hb
    refine ⟨hcn, List.nodup_cons.mpr ⟨hbp, hpn⟩, ?_, ?_, hcons⟩
    · intro b2 h2; exact Option.noConfusion h2
    · intro b2 h2
      rcases List.mem_cons.mp h2 with rfl | h3
      · exact ⟨hbc, hbn⟩
      · exact hpend b2 h3
  | prepareBuild hns =>
    refine ⟨hcn, ?_, ?_, ?_, ?_⟩
    · exact List.nodup_cons.mpr ⟨fun hmem => lt_irrefl _ (hpend _ hmem).2, hpn⟩
    · intro b2 h2
      have h2' : s.slot = some b2 := h2
      rw [hns] at h2'
      exact Option.noConfusion h2'
    · intro b2 h2
      rcases List.mem_cons.mp h2 with rfl | h3
      · exact ⟨fun hmem => lt_irrefl _ (hcons _ hmem), Nat.lt_succ_self _⟩
      · exact ⟨(hpend b2 h3).1, Nat.lt_succ_of_lt (hpend b2 h3).2⟩
    · intro b2 h2; exact Nat.lt_succ_of_lt (hcons b2 h2)
  | preparePutOk b hb hns =>
    refine ⟨hcn, hpn.erase b, ?_, ?_, hcons⟩
    · intro b2 h2
      obtain rfl : b = b2 := Option.some.inj h2
      exact ⟨hpn.not_mem_erase, (hpend b hb).1, (hpend b hb).2⟩
    · intro b2 h2
      exact hpend b2 (List.mem_of_mem_erase h2)
  | preparePutDrop b b2 hb hslot2 =>
    refine ⟨hcn, hpn.erase b, ?_, ?_, hcons⟩
    · intro b3 h3
      obtain ⟨h3p, h3c, h3n⟩ := hslot b3 h3
      exact ⟨fun hmem => h3p (List.mem_of_mem_erase hmem), h3c, h3n⟩
    · intro b3 h3; exact hpend b3 (List.mem_of_mem_erase h3)
  | consumeTake b hb =>
    obtain ⟨hbp, hbc, hbn⟩ := hslot b hb
    refine ⟨List.nodup_cons.mpr ⟨hbc, hcn⟩, hpn, ?_, ?_, ?_⟩
    · intro b2 h2; exact Option.noConfusion h2
    · intro b2 h2
      refine ⟨fun hmem => ?_, (hpend b2 h2).2⟩
      rcases List.mem_cons.mp hmem with rfl | h3
      · exact hbp h2
      · exact (hpend b2 h2).1 h3
    · intro b2 h2
      rcases List.mem_cons.mp h2 with rfl | h3
      · exact hbn
      · exact hcons b2 h3
  | consumeBuild hns =>
    refine ⟨?_, hpn, ?_, ?_, ?_⟩
    · exact List.nodup_cons.mpr ⟨fun hmem => lt_irrefl _ (hcons _ hmem), hcn⟩
    · intro b2 h2
      have h2' : s.slot = some b2 := h2
      rw [hns] at h2'
      exact Option.noConfusion h2'
    · intro b2 h2
      refine ⟨fun hmem => ?_, Nat.lt_succ_of_lt (hpend b2 h2).2⟩
      rcases List.mem_cons.mp hmem with rfl | h3
      · exact lt_irrefl _ (hpend _ h2).2
      · exact (hpend b2 h2).1 h3
    · intro b2 h2
      rcases List.mem_cons.mp h2 with rfl | h3
      · exact Nat.lt_succ_self _
      · exact Nat.lt_succ_of_lt (hcons b2 h3)

/-- Every reachable cache state satisfies the invariant. -/
theorem cacheReachable_inv {s : CacheModelState} (h : CacheReachable s) :
    CacheInv s := by
  unfold CacheReachable at h
  induction h with
  | refl => exact cacheInv_initial
  | tail hsteps hstep ih => exact cacheInv_step hstep ih

/-- C5: under every interleaving of concurrent `NonrevPrepareCache` calls and
disclosure-proof constructions on the same credential, the consumed builders
are pairwise distinct — no builder (and hence no randomiser) is ever consumed
by two proofs — and a consumed builder never returns to the cache slot, nor
is it held by any in-flight `Prepare`. -/
theorem cache_at_most_once (s : CacheModelState) (h : CacheReachable s) :
    s.consumed.Nodup ∧
    ∀ b ∈ s.consumed, s.slot ≠ some b ∧ b ∉ s.pendingPrep := by
  obtain ⟨hcn, hpn, hslot, hpend, hcons⟩ := cacheReachable_inv h
  exact ⟨hcn, fun b hb =>
    ⟨fun hs => (hslot b hs).2.1 hb, fun hp => (hpend b hp).1 hb⟩⟩

/-- Witness for `cache_at_most_once`: the interleaving Prepare-build,
Prepare-put, consume reaches the state where builder 0 has been consumed
once, and the conclusion holds there. -/
theorem cache_at_most_once_witness :
    CacheReachable { slot := none, pendingPrep := [], consumed := [0], nextId := 1 } ∧
    (({ slot := none, pendingPrep := [], consumed := [0], nextId := 1 } :
        CacheModelState).consumed.Nodup ∧
      ∀ b ∈ ({ slot := none, pendingPrep := [], consumed := [0], nextId := 1 } :
        CacheModelState).consumed,
        ({ slot := none, pendingPrep := [], consumed := [0], nextId := 1 } :
          CacheModelState).slot ≠ some b ∧
        b ∉ ({ slot := none, pendingPrep := [], consumed := [0], nextId := 1 } :
          CacheModelState).pendingPrep) := by
  have st1 : CacheStep initialCacheState
      { slot := none, pendingPrep := [0], consumed := [], nextId := 1 } :=
    CacheStep.prepareBuild initialCacheState rfl
  have st2 : CacheStep { slot := none, pendingPrep := [0], consumed := [], nextId := 1 }
      { slot := some 0, pendingPrep := [], consumed := [], nextId := 1 } :=
    CacheStep.preparePutOk _ 0 (List.mem_cons_self 0 []) rfl
  have st3 : CacheStep { slot := some 0, pendingPrep := [], consumed := [], nextId := 1 }
      { slot := none, pendingPrep := [], consumed := [0], nextId := 1 } :=
    CacheStep.consumeTake _ 0 rfl
  have htrace : CacheReachable
      { slot := none, pendingPrep := [], consumed := [0], nextId := 1 } :=
    Relation.ReflTransGen.tail
      (Relation.ReflTransGen.tail (Relation.ReflTransGen.single st1) st2) st3
  exact ⟨htrace, cache_at_most_once _ htrace⟩

/-- Looking up a key in an association list built by pairing each list
element with a function of it returns that function value. -/
theorem lookup_map_pair (f : Int → Int) : ∀ (l : List Int) (v : Int), v ∈ l →
    (l.map fun x => (x, f x)).lookup v = some (f v) := by
  intro l
  induction l with
  | nil => intro v hv; exact absurd hv (List.not_mem_nil v)
  | cons a rest ih =>
    intro v hv
    by_cases hva : v = a
    · subst hva
      simp [List.lookup]
    · have hbeq : (v == a) = false := beq_eq_false_iff_ne.mpr hva
      simp only [List.map_cons, List.lookup, hbeq]
      rcases List.mem_cons.mp hv with rfl | h3
      · exact absurd rfl hva
      · exact ih v h3

/-- Projecting the keys out of an association list built by pairing gives
back the key list. -/
theorem map_fst_map_pair (g : Int → Int) :
    ∀ l : List Int, (l.map fun x => (x, g x)).map Prod.fst = l
  | [] => rfl
  | a :: rest => by simp [map_fst_map_pair g rest]

/-- C3: for every builder state and challenge `c`, `CreateProof(c)` returns a
`ProofD` with `C = c`, `A = A'`, `EResponse = eCommit + c*(E - 2^(Le-1))`,
`VResponse = vCommit + c*V'`, `AResponses` defined on exactly the undisclosed
indices with value `attrRandomizers[i] + c*m̂_i` (where `m̂_i` is the hashed
attribute when its bit length exceeds `Lm`, the attribute itself otherwise),
and `ADisclosed` defined on exactly the disclosed indices with the attribute
values; all response arithmetic is over the integers (no reduction mod `N`
appears in any response). -/
theorem createProof_spec (hash : Int → Int) (ops : RevOps)
    (d : DisclosureProofBuilder) (c : Int) :
    (d.CreateProof hash ops c).C = c ∧
    (d.CreateProof hash ops c).A = d.randomizedSignature.A ∧
    (d.CreateProof hash ops c).EResponse =
      d.eCommit + c * (d.randomizedSignature.E - 2 ^ (d.pk.Params.Le - 1)) ∧
    (d.CreateProof hash ops c).VResponse = d.vCommit + c * d.randomizedSignature.V ∧
    (d.CreateProof hash ops c).AResponses.map Prod.fst = d.undisclosedAttributes ∧
    (∀ v ∈ d.undisclosedAttributes,
      (d.CreateProof hash ops c).AResponses.lookup v =
        some (d.attrRandomizers v + c *
          (if d.pk.Params.Lm < bitLen (d.attributes.getD v.toNat 0).natAbs
           then hash (d.attributes.getD v.toNat 0)
           else d.attributes.getD v.toNat 0))) ∧
    (d.CreateProof hash ops c).ADisclosed.map Prod.fst = d.disclosedAttributes ∧
    (∀ v ∈ d.disclosedAttributes,
      (d.CreateProof hash ops c).ADisclosed.lookup v =
        some (d.attributes.getD v.toNat 0)) := by
  refine ⟨rfl, rfl, rfl, rfl, ?_, ?_, ?_, ?_⟩
  · exact map_fst_map_pair _ d.undisclosedAttributes
  · intro v hv
    exact lookup_map_pair _ d.undisclosedAttributes v hv
  · exact map_fst_map_pair _ d.disclosedAttributes
  · intro v hv
    exact lookup_map_pair _ d.disclosedAttributes v hv

/-- Witness for `createProof_spec` on a concrete builder, specialised to the
undisclosed index 0. -/
theorem createProof_spec_witness :
    ((0 : Int) ∈ smallBuilder.undisclosedAttributes) ∧
    ((smallBuilder.CreateProof (fun z => z) trivialRevOps 3).AResponses.lookup 0 =
      some (smallBuilder.attrRandomizers 0 + 3 *
        (if smallBuilder.pk.Params.Lm <
            bitLen ((smallBuilder.attributes.getD (0 : Int).toNat 0)).natAbs
         then (fun z => z) (smallBuilder.attributes.getD (0 : Int).toNat 0)
         else smallBuilder.attributes.getD (0 : Int).toNat 0))) :=
  ⟨by decide,
    ((createProof_spec (fun z => z) trivialRevOps smallBuilder 3).2.2.2.2.2.1)
      0 (by decide)⟩

/-- Folding `MergeProofPCommitment` only multiplies the merged `Pcommit`
values into `z` (mod `N`); all other builder fields are untouched. -/
theorem mergeFold_eq : ∀ (ps : List ProofPCommitment) (d : DisclosureProofBuilder),
    ps.foldl DisclosureProofBuilder.MergeProofPCommitment d =
      { d with z := ps.foldl (fun z p => z * p.Pcommit % d.pk.N) d.z }
  | [], d => rfl
  | p :: rest, d => by
    simp only [List.foldl_cons]
    rw [mergeFold_eq rest]
    rfl

/-- A fold of modular multiplications starting from a reduced value equals
the reduced product. -/
theorem foldl_mul_emod (N : Int) : ∀ (l : List Int) (a : Int),
    l.foldl (fun z t => z * t % N) (a % N) = a * l.prod % N
  | [], a => by simp
  | t :: rest, a => by
    simp only [List.foldl_cons, List.prod_cons]
    have h1 : a % N * t % N = a * t % N := by
      conv_lhs => rw [Int.mul_emod, Int.emod_emod_of_dvd a dvd_rfl, ← Int.mul_emod]
    rw [h1, foldl_mul_emod N rest (a * t), mul_assoc]

/-- A fold of modular multiplications from an arbitrary start is congruent to
the plain product. -/
theorem foldl_mul_emod_modeq (N : Int) : ∀ (l : List Int) (a : Int),
    l.foldl (fun z t => z * t % N) a ≡ a * l.prod [ZMOD N]
  | [], a => by simp
  | t :: rest, a => by
    simp only [List.foldl_cons, List.prod_cons]
    have h1 : (a * t % N) ≡ a * t [ZMOD N] := Int.emod_emod_of_dvd _ dvd_rfl
    calc rest.foldl (fun z u => z * u % N) (a * t % N)
        ≡ (a * t % N) * rest.prod [ZMOD N] := foldl_mul_emod_modeq N rest (a * t % N)
      _ ≡ (a * t) * rest.prod [ZMOD N] := Int.ModEq.mul_right _ h1
      _ = a * (t * rest.prod) := by ring

/-- Congruent factors give congruent mapped products. -/
theorem prod_map_modeq (N : Int) (f g : Int → Int) : ∀ l : List Int,
    (∀ v ∈ l, f v ≡ g v [ZMOD N]) → (l.map f).prod ≡ (l.map g).prod [ZMOD N]
  | [], _ => by simp
  | v :: rest, h => by
    simp only [List.map_cons, List.prod_cons]
    exact Int.ModEq.mul (h v (List.mem_cons_self v rest))
      (prod_map_modeq N f g rest fun x hx => h x (List.mem_cons_of_mem v hx))

/-- With nonnegative randomisers, the `Z`-accumulation loop never fails and
equals the corresponding pure fold. -/
theorem commitZFold_eq (pk : PublicKey) (ar : Int → Int) :
    ∀ (l : List Int) (z : Int), (∀ v ∈ l, 0 ≤ ar v) →
      commitZFold pk ar l z =
        some (l.foldl
          (fun z2 v => z2 * (pk.R.getD v.toNat 0 ^ (ar v).toNat % pk.N) % pk.N) z)
  | [], z, _ => rfl
  | v :: rest, z, h => by
    simp only [commitZFold, List.foldl_cons]
    rw [show ModPow (pk.R.getD v.toNat 0) (ar v) pk.N =
        some (pk.R.getD v.toNat 0 ^ (ar v).toNat % pk.N) from by
      simp [ModPow, h v (List.mem_cons_self v rest)]]
    exact commitZFold_eq pk ar rest _ fun x hx => h x (List.mem_cons_of_mem v hx)

/-- Generic accumulator-pair fold: both components just concatenate. -/
theorem foldl_pair_append (g : Nat → List Int) (h : Nat → List (Int × List Int)) :
    ∀ (l : List Nat) (a : List Int) (b : List (Int × List Int)),
      l.foldl (fun acc i => (acc.1 ++ g i, acc.2 ++ h i)) (a, b) =
        (a ++ l.flatMap g, b ++ l.flatMap h)
  | [], a, b => by simp
  | x :: rest, a, b => by
    simp only [List.foldl_cons]
    rw [foldl_pair_append g h rest (a ++ g x) (b ++ h x)]
    simp [List.flatMap_cons, List.append_assoc]

/-- Two pointwise-equal fold functions fold equally. -/
theorem foldl_funext {α β : Type} (f g : β → α → β) (hfg : ∀ b a, f b a = g b a) :
    ∀ (l : List α) (b : β), l.foldl f b = l.foldl g b
  | [], _ => rfl
  | x :: xs, b => by
    simp only [List.foldl_cons]
    rw [hfg b x]
    exact foldl_funext f g hfg xs (g b x)

/-- The contribution component of the range-proof loop: ascending attribute
index, and within one index the structures in stored (input) order. -/
theorem rpLoop_fst (pk : PublicKey) (attributes : List Int) (ar : Int → Int)
    (rps : List (Int × List RPStructure)) :
    (rpCommitLoop pk attributes ar rps).1 =
      (List.range attributes.length).flatMap fun i =>
        match rps.lookup (i : Int) with
        | none => []
        | some structures =>
          structures.flatMap fun st =>
            (st.commitFn pk (attributes.getD i 0) (ar (i : Int))).1 := by
  have hfun : ∀ (acc : List Int × List (Int × List Int)) (i : Nat),
      (match rps.lookup (i : Int) with
       | none => acc
       | some structures =>
         (acc.1 ++ structures.flatMap
             (fun st => (st.commitFn pk (attributes.getD i 0) (ar (i : Int))).1),
          acc.2 ++ [((i : Int), structures.map
             (fun st => (st.commitFn pk (attributes.getD i 0) (ar (i : Int))).2))])) =
      (acc.1 ++ (match rps.lookup (i : Int) with
                 | none => []
                 | some structures =>
                   structures.flatMap fun st =>
                     (st.commitFn pk (attributes.getD i 0) (ar (i : Int))).1),
       acc.2 ++ (match rps.lookup (i : Int) with
                 | none => []
                 | some structures =>
                   [((i : Int), structures.map
                      (fun st => (st.commitFn pk (attributes.getD i 0) (ar (i : Int))).2))])) := by
    intro acc i
    cases h : rps.lookup (i : Int) <;> simp
  unfold rpCommitLoop
  rw [foldl_funext _ _ hfun, foldl_pair_append]
  simp

/-- `commitRange` always succeeds and appends the range contributions (in
ascending attribute index, input statement order) after `[A', Z]` and the
non-revocation chunk. -/
theorem commitRange_list (d2 : DisclosureProofBuilder) (nrList : List Int) :
    ∃ d3, commitRange d2 nrList =
      some (d3, [d2.randomizedSignature.A, d2.z] ++ nrList ++
        (match d2.rpStructures with
         | none => []
         | some rps =>
           (List.range d2.attributes.length).flatMap fun i =>
             match rps.lookup (i : Int) with
             | none => []
             | some structures =>
               structures.flatMap fun st =>
                 (st.commitFn d2.pk (d2.attributes.getD i 0)
                   (d2.attrRandomizers (i : Int))).1)) := by
  cases hrp : d2.rpStructures with
  | none =>
    refine ⟨d2, ?_⟩
    unfold commitRange
    simp only [hrp]
    simp
  | some rps =>
    refine ⟨{ d2 with rpCommits := some (rpCommitLoop d2.pk d2.attributes d2.attrRandomizers rps).2 }, ?_⟩
    unfold commitRange
    simp only [hrp]
    rw [rpLoop_fst]

/-- `commitNonrev` always succeeds, appending the non-revocation commitments
(when a non-revocation builder is present) and then the range contributions. -/
theorem commitNonrev_list (ops : RevOps) (d2 : DisclosureProofBuilder) :
    ∃ d3, commitNonrev ops d2 =
      some (d3, [d2.randomizedSignature.A, d2.z] ++
        (match d2.nonrevBuilder with
         | none => []
         | some nb => (nb.Commit ops).2) ++
        (match d2.rpStructures with
         | none => []
         | some rps =>
           (List.range d2.attributes.length).flatMap fun i =>
             match rps.lookup (i : Int) with
             | none => []
             | some structures =>
               structures.flatMap fun st =>
                 (st.commitFn d2.pk (d2.attributes.getD i 0)
                   (d2.attrRandomizers (i : Int))).1)) := by
  cases hnb : d2.nonrevBuilder with
  | none =>
    unfold commitNonrev
    rw [hnb]
    exact commitRange_list d2 []
  | some nb =>
    unfold commitNonrev
    rw [hnb]
    exact commitRange_list
      { d2 with nonrevBuilder := some (nb.Commit ops).1 } (nb.Commit ops).2

/-- Under nonnegative commitment randomness, `Commit` reduces to
`commitNonrev` on the builder carrying the updated randomisers and the fully
accumulated `Z`. -/
theorem commit_eq_commitNonrev (ops : RevOps) (d : DisclosureProofBuilder)
    (rds : List (String × Int))
    (hE : 0 ≤ d.eCommit) (hV : 0 ≤ d.vCommit)
    (hA : ∀ v ∈ d.undisclosedAttributes,
      0 ≤ Function.update d.attrRandomizers 0 ((rds.lookup "secretkey").getD 0) v) :
    d.Commit ops rds = commitNonrev ops (committedBuilder d rds) := by
  unfold DisclosureProofBuilder.Commit committedBuilder
  have hAe : ModPow d.randomizedSignature.A d.eCommit d.pk.N =
      some (d.randomizedSignature.A ^ d.eCommit.toNat % d.pk.N) := by
    simp [ModPow, hE]
  have hSv : ModPow d.pk.S d.vCommit d.pk.N =
      some (d.pk.S ^ d.vCommit.toNat % d.pk.N) := by
    simp [ModPow, hV]
  have hZ := commitZFold_eq d.pk
    (Function.update d.attrRandomizers 0 ((rds.lookup "secretkey").getD 0))
    d.undisclosedAttributes
    (d.z * (d.randomizedSignature.A ^ d.eCommit.toNat % d.pk.N) *
      (d.pk.S ^ d.vCommit.toNat % d.pk.N) % d.pk.N) hA
  simp only [hAe, hSv, hZ]
  have hzz : d.undisclosedAttributes.foldl
      (fun z2 v => z2 * (d.pk.R.getD v.toNat 0 ^
        ((Function.update d.attrRandomizers 0
          ((rds.lookup "secretkey").getD 0)) v).toNat % d.pk.N) % d.pk.N)
      (d.z * (d.randomizedSignature.A ^ d.eCommit.toNat % d.pk.N) *
        (d.pk.S ^ d.vCommit.toNat % d.pk.N) % d.pk.N) =
      (d.z * d.randomizedSignature.A ^ d.eCommit.toNat *
        d.pk.S ^ d.vCommit.toNat *
        (d.undisclosedAttributes.map fun v =>
          d.pk.R.getD v.toNat 0 ^
            ((Function.update d.attrRandomizers 0
               ((rds.lookup "secretkey").getD 0)) v).toNat).prod) % d.pk.N := by
    rw [← List.foldl_map
      (fun v => d.pk.R.getD v.toNat 0 ^
        ((Function.update d.attrRandomizers 0
          ((rds.lookup "secretkey").getD 0)) v).toNat % d.pk.N)
      (fun z2 t => z2 * t % d.pk.N)]
    rw [foldl_mul_emod]
    have hx : d.z * (d.randomizedSignature.A ^ d.eCommit.toNat % d.pk.N) *
        (d.pk.S ^ d.vCommit.toNat % d.pk.N) ≡
        d.z * d.randomizedSignature.A ^ d.eCommit.toNat *
          d.pk.S ^ d.vCommit.toNat [ZMOD d.pk.N] :=
      Int.ModEq.mul
        (Int.ModEq.mul (Int.ModEq.refl d.z) (Int.emod_emod_of_dvd _ dvd_rfl))
        (Int.emod_emod_of_dvd _ dvd_rfl)
    have hprod : ((d.undisclosedAttributes.map fun v =>
        d.pk.R.getD v.toNat 0 ^
          ((Function.update d.attrRandomizers 0
            ((rds.lookup "secretkey").getD 0)) v).toNat % d.pk.N)).prod ≡
        ((d.undisclosedAttributes.map fun v =>
          d.pk.R.getD v.toNat 0 ^
            ((Function.update d.attrRandomizers 0
              ((rds.lookup "secretkey").getD 0)) v).toNat)).prod [ZMOD d.pk.N] :=
      prod_map_modeq d.pk.N _ _ d.undisclosedAttributes
        (fun v _ => Int.emod_emod_of_dvd _ dvd_rfl)
    exact Int.ModEq.mul hx hprod
  rw [hzz]

/-- The merged-`Pcommit` fold is congruent to the plain product, lifted to
the final `Z` value. -/
theorem z_value_eq (N Ae Sv prodR : Int) (ps : List ProofPCommitment) :
    (ps.foldl (fun z p => z * p.Pcommit % N) 1 * Ae * Sv * prodR) % N =
    ((ps.map ProofPCommitment.Pcommit).prod * Ae * Sv * prodR) % N := by
  have h1 : ps.foldl (fun z p => z * p.Pcommit % N) 1 ≡
      (ps.map ProofPCommitment.Pcommit).prod [ZMOD N] := by
    rw [← List.foldl_map ProofPCommitment.Pcommit (fun z t => z * t % N)]
    have h2 := foldl_mul_emod_modeq N (ps.map ProofPCommitment.Pcommit) 1
    simpa using h2
  exact Int.ModEq.mul
    (Int.ModEq.mul (Int.ModEq.mul h1 (Int.ModEq.refl Ae)) (Int.ModEq.refl Sv))
    (Int.ModEq.refl prodR)

/-- C2: starting from a fresh builder (`Z = 1`) into which any sequence of
`ProofPCommitment`s has been merged, `Commit(randomizers)` returns the
ordered list `[A', Z]`, then the non-revocation commitments (when
non-revocation is enabled), then the range-proof contributions iterated in
ascending attribute index and, within one index, in stored statement order;
`Z` is the product of the merged `Pcommit`s (initially 1) times
`(A')^eCommit * S^vCommit * prod R_i^{attrRandomizers[i]}` over the
undisclosed indices, all mod `N`, after `attrRandomizers[0]` has been set to
`randomizers["secretkey"]`.  (The nonnegativity hypotheses reflect that all
commitment randomness is sampled as nonnegative big integers.) -/
theorem commit_list_spec (ops : RevOps) (d0 : DisclosureProofBuilder)
    (ps : List ProofPCommitment) (rds : List (String × Int))
    (hz : d0.z = 1) (hE : 0 ≤ d0.eCommit) (hV : 0 ≤ d0.vCommit)
    (hA : ∀ v ∈ d0.undisclosedAttributes,
      0 ≤ Function.update d0.attrRandomizers 0 ((rds.lookup "secretkey").getD 0) v) :
    ∃ d2, (ps.foldl DisclosureProofBuilder.MergeProofPCommitment d0).Commit ops rds =
      some (d2,
        [d0.randomizedSignature.A,
         ((ps.map ProofPCommitment.Pcommit).prod *
            d0.randomizedSignature.A ^ d0.eCommit.toNat *
            d0.pk.S ^ d0.vCommit.toNat *
            (d0.undisclosedAttributes.map fun v =>
              d0.pk.R.getD v.toNat 0 ^
                ((Function.update d0.attrRandomizers 0
                   ((rds.lookup "secretkey").getD 0)) v).toNat).prod) % d0.pk.N] ++
        (match d0.nonrevBuilder with
         | none => []
         | some nb => (nb.Commit ops).2) ++
        (match d0.rpStructures with
         | none => []
         | some rps =>
           (List.range d0.attributes.length).flatMap fun i =>
             match rps.lookup (i : Int) with
             | none => []
             | some structures =>
               structures.flatMap fun st =>
                 (st.commitFn d0.pk (d0.attributes.getD i 0)
                   ((Function.update d0.attrRandomizers 0
                      ((rds.lookup "secretkey").getD 0)) (i : Int))).1)) := by
  rw [mergeFold_eq, hz]
  rw [commit_eq_commitNonrev ops
    { d0 with z := List.foldl (fun z p => z * p.Pcommit % d0.pk.N) 1 ps } rds hE hV hA]
  obtain ⟨d3, h3⟩ := commitNonrev_list ops (committedBuilder
    { d0 with z := List.foldl (fun z p => z * p.Pcommit % d0.pk.N) 1 ps } rds)
  rw [h3]
  refine ⟨d3, ?_⟩
  simp only [committedBuilder]
  rw [z_value_eq]

/-- Witness for `commit_list_spec` on a concrete builder with one merged
`ProofPCommitment` (value 3) and secret-key randomiser 1: the commitment
list is `[A', Z] = [2, 1]` (no non-revocation, no range statements). -/
theorem commit_list_spec_witness :
    (smallBuilder.z = 1 ∧ (0 : Int) ≤ smallBuilder.eCommit ∧
      (0 : Int) ≤ smallBuilder.vCommit ∧
      ∀ v ∈ smallBuilder.undisclosedAttributes,
        0 ≤ Function.update smallBuilder.attrRandomizers 0
          ((([("secretkey", (1 : Int))] : List (String × Int)).lookup "secretkey").getD 0) v) ∧
    ∃ d2, (([⟨3⟩] : List ProofPCommitment).foldl
        DisclosureProofBuilder.MergeProofPCommitment smallBuilder).Commit
        trivialRevOps [("secretkey", 1)] = some (d2, [2, 1]) :=
  ⟨⟨rfl, by decide, by decide, by decide⟩,
    commit_list_spec trivialRevOps smallBuilder [⟨3⟩] [("secretkey", 1)]
      rfl (by decide) (by decide) (by decide)⟩

end Gabi
